import Mathlib

/-!
Verification of the qiniustorage backend (qiniustorage/backends.py).

Shallow embedding: Python str values become lists of characters, Python
bytes become lists of byte values.  The remote Qiniu service, reached in
the source through the qiniu SDK and through requests, is modelled as an
environment of maps from fully-qualified keys to blob payloads, stat
records and delete responses; each storage operation consults that
environment exactly where the source performs the corresponding network
call.
-/

/-- Python str, as a list of characters. -/
abbrev Str := List Char

/-- Python bytes, as a list of byte values. -/
abbrev Bytes := List Nat

/-- The character list of a string literal. -/
def str (s : String) : Str := s.toList

/-- Byte content from a string literal, for concrete examples. -/
def bytesOf (s : String) : Bytes := s.toList.map Char.toNat

/-- Python name.lstrip('/'): drop every leading '/'. -/
def lstripSlash (s : Str) : Str := s.dropWhile (· == '/')

/-- The configuration of a QiniuStorage instance, holding the fields the
claims depend on: the class attribute location (the root segment: "" for
QiniuStorage, "media" for QiniuMediaStorage, "static" for
QiniuStaticStorage), the configured filename_prefix, and the configured
bucket_domain. -/
structure StorageConfig where
  location : Str
  filenamePre : Str
  bucketDomain : Str

/-- QiniuStorage._normalize_name:
("%s/%s" % (self.location, name.lstrip('/'))).lstrip('/'). -/
def normalizeName (cfg : StorageConfig) (name : Str) : Str :=
  lstripSlash (cfg.location ++ '/' :: lstripSlash name)

/-- QiniuStorage._prefix_name: self.filename_prefix + name. -/
def prefixName (cfg : StorageConfig) (name : Str) : Str :=
  cfg.filenamePre ++ name

/-- Models urllib's urljoin for the shapes the adapter produces: the bucket
domain is an absolute URL whose path ends in '/', and the key is a relative
reference without a leading '/', so the join keeps the base up to and
including its last '/' and appends the reference. -/
def urljoin (base rel : Str) : Str :=
  (base.reverse.dropWhile (· != '/')).reverse ++ rel

/-- QiniuStorage.url: urljoin(self.bucket_domain, self._prefix_name(name))
after normalizing the cleaned name. -/
def url (cfg : StorageConfig) (name : Str) : Str :=
  urljoin cfg.bucketDomain (prefixName cfg (normalizeName cfg name))

/-- The stat record returned by the qiniu SDK: the two fields the code
reads, fsize and putTime. -/
structure BlobStat where
  fsize : Nat
  putTime : Nat
deriving DecidableEq

/-- The remote service state and responses, as consulted by the adapter:
the blob stored under each key (served by HTTP GET on its public URL), the
stat record for each key, and the (ret, info.status_code) pair the delete
endpoint answers for each key. -/
structure RemoteEnv where
  blobs : Str → Option Bytes
  stats : Str → Option BlobStat
  deleteRet : Str → Option Unit
  deleteStatus : Str → Int

/-- A remote environment with no blobs, no stats and empty delete answers. -/
def emptyEnv : RemoteEnv :=
  { blobs := fun _ => none
    stats := fun _ => none
    deleteRet := fun _ => none
    deleteStatus := fun _ => 0 }

/-- The exceptions the adapter raises: QiniuError, and the AttributeError
raised by QiniuFile.write on a handle that was not opened for writing. -/
inductive StorageErr
  | qiniuError
  | invalidOperation
deriving DecidableEq

/-- The successful effect of QiniuStorage._put_file: put_data stores the
content under exactly the requested key (the code checks ret['key'] ==
name and raises otherwise; we model the success path). -/
def putFile (env : RemoteEnv) (key : Str) (content : Bytes) : RemoteEnv :=
  { env with blobs := fun k => if k = key then some content else env.blobs k }

/-- QiniuStorage._save: normalizes the cleaned name, uploads the whole
content under the prefixed normalized name, and returns the normalized
name. -/
def save (env : RemoteEnv) (cfg : StorageConfig) (name : Str) (content : Bytes) :
    RemoteEnv × Str :=
  let n := normalizeName cfg name
  (putFile env (prefixName cfg n) content, n)

/-- QiniuStorage._read: requests.get(self.url(name)).content.  The service
serves the blob stored under key k at urljoin(bucket_domain, k), so the
composite is a lookup of the prefixed normalized name; a key with no blob
is modelled as none. -/
def readRemote (env : RemoteEnv) (cfg : StorageConfig) (name : Str) : Option Bytes :=
  env.blobs (prefixName cfg (normalizeName cfg name))

/-- QiniuStorage._file_stat: stats the prefixed normalized name; when the
SDK returns no result and silent is false, raises QiniuError, otherwise
returns the (possibly absent) stat record. -/
def fileStat (env : RemoteEnv) (cfg : StorageConfig) (name : Str) (silent : Bool) :
    Except StorageErr (Option BlobStat) :=
  let ret := env.stats (prefixName cfg (normalizeName cfg name))
  if ret.isNone && !silent then .error .qiniuError else .ok ret

/-- QiniuStorage.exists: stats silently and answers True exactly when a
stat record came back. -/
def existsName (env : RemoteEnv) (cfg : StorageConfig) (name : Str) :
    Except StorageErr Bool :=
  (fileStat env cfg name true).map (fun st => st.isSome)

/-- QiniuStorage.size: stats loudly and reads fsize.  The ok-none branch is
unreachable because a silent=false stat never returns an absent record;
Python would crash there, modelled as an error. -/
def sizeName (env : RemoteEnv) (cfg : StorageConfig) (name : Str) :
    Except StorageErr Nat :=
  match fileStat env cfg name false with
  | .error e => .error e
  | .ok none => .error .qiniuError
  | .ok (some s) => .ok s.fsize

/-- QiniuStorage.modified_time: stats loudly and converts the raw putTime
to Unix seconds via float(putTime)/10000000, modelled over the rationals
(datetime.fromtimestamp is left at the seconds level).  The ok-none branch
is unreachable as in sizeName. -/
def modifiedTime (env : RemoteEnv) (cfg : StorageConfig) (name : Str) :
    Except StorageErr ℚ :=
  match fileStat env cfg name false with
  | .error e => .error e
  | .ok none => .error .qiniuError
  | .ok (some s) => .ok ((s.putTime : ℚ) / 10000000)

/-- QiniuStorage.delete: deletes the prefixed normalized name and raises
QiniuError when ret is None or info.status_code == 612. -/
def deleteName (env : RemoteEnv) (cfg : StorageConfig) (name : Str) :
    Except StorageErr Unit :=
  let key := prefixName cfg (normalizeName cfg name)
  if env.deleteRet key = none ∨ env.deleteStatus key = 612 then
    .error .qiniuError
  else
    .ok ()

/-- The state of a QiniuFile handle: the stored logical name self._name
(the first len(location) characters of the constructor's name removed,
then leading slashes stripped), the mode, the BytesIO buffer with its
cursor, and the _is_dirty/_is_read flags. -/
structure QiniuFile where
  name : Str
  mode : Str
  buffer : Bytes
  pos : Nat
  isDirty : Bool
  isRead : Bool
deriving DecidableEq

/-- QiniuFile.__init__ as invoked by QiniuStorage._open: the stored name is
name[len(self._storage.location):].lstrip('/'), the buffer starts empty and
both flags start false. -/
def openFile (cfg : StorageConfig) (name : Str) (mode : Str) : QiniuFile :=
  { name := lstripSlash (name.drop cfg.location.length)
    mode := mode
    buffer := []
    pos := 0
    isDirty := false
    isRead := false }

/-- What QiniuFile.read returns: raw bytes when 'b' is in the mode,
otherwise the force_text decoding of the bytes. -/
inductive ReadData
  | bin (b : Bytes)
  | txt (t : Str)
deriving DecidableEq

/-- QiniuFile.read: when the handle has not been read, fetch the full
content through the storage's _read keyed by self._name, replace the
buffer (cursor back at 0) and set _is_read; then read num_bytes (or all
remaining) from the cursor, returning bytes in binary mode and decoded
text otherwise.  decode models force_text; a fetch of a key with no blob
propagates as none. -/
def readFile (decode : Bytes → Str) (env : RemoteEnv) (cfg : StorageConfig)
    (f : QiniuFile) (numBytes : Option Nat) : Option (ReadData × QiniuFile) :=
  let populated : Option QiniuFile :=
    if f.isRead then some f
    else (readRemote env cfg f.name).map fun c =>
      { f with buffer := c, pos := 0, isRead := true }
  populated.map fun g =>
    let avail := g.buffer.drop g.pos
    let data := match numBytes with
      | none => avail
      | some n => avail.take n
    (if 'b' ∈ g.mode then ReadData.bin data else ReadData.txt (decode data),
      { g with pos := g.pos + data.length })

/-- BytesIO.write at the cursor: overwrite in place, zero-pad when the
cursor sits past the end, and advance the cursor by the data length. -/
def bufWrite (buf : Bytes) (pos : Nat) (data : Bytes) : Bytes :=
  buf.take pos ++ List.replicate (pos - buf.length) 0 ++ data ++ buf.drop (pos + data.length)

/-- QiniuFile.write: raises (AttributeError) when 'w' is not in the mode,
leaving the handle untouched; otherwise writes the encoded bytes at the
cursor and sets both _is_dirty and _is_read.  The first component is the
handle after the call. -/
def writeFile (f : QiniuFile) (data : Bytes) : QiniuFile × Option StorageErr :=
  if 'w' ∈ f.mode then
    ({ f with
        buffer := bufWrite f.buffer f.pos data
        pos := f.pos + data.length
        isDirty := true
        isRead := true }, none)
  else
    (f, some .invalidOperation)

/-- The upload QiniuFile.close performs, as (key, content): when _is_dirty
the code calls self._storage._put_file(self._name, self.file.getvalue()),
so the key is the stored name itself; a clean handle uploads nothing. -/
def closeUpload (f : QiniuFile) : Option (Str × Bytes) :=
  if f.isDirty then some (f.name, f.buffer) else none

/-- The handle's fully-qualified remote key: its stored name normalized
under the root and with the filename_prefix prepended (what _save and
_read use for network calls). -/
def fullKey (cfg : StorageConfig) (f : QiniuFile) : Str :=
  prefixName cfg (normalizeName cfg f.name)

/-- Python key.split("/"): splitting on a one-character separator, with
"".split("/") == [""]. -/
def splitSlash : Str → List Str
  | [] => [[]]
  | c :: cs =>
    if c = '/' then [] :: splitSlash cs
    else
      match splitSlash cs with
      | [] => [[c]]
      | p :: ps => (c :: p) :: ps

/-- Adding an element to the set of directory names: kept as a list,
deduplicated in first-insertion order. -/
def insertUniq (l : List Str) (x : Str) : List Str :=
  if x ∈ l then l else l ++ [x]

/-- The listdir prefix, slash-terminated when non-empty:
if name and not name.endswith('/'): name += '/'. -/
def slashTerminated (n : Str) : Str :=
  if n ≠ [] ∧ n.getLast? ≠ some '/' then n ++ ['/'] else n

/-- The number of base segments of the listdir prefix:
len(name.split("/")[:-1]). -/
def baseLenOf (cfg : StorageConfig) (name : Str) : Nat :=
  ((splitSlash (slashTerminated (normalizeName cfg name))).dropLast).length

/-- The per-key relative segments: item['key'].split("/") with the first
baseLen segments dropped. -/
def relParts (baseLen : Nat) (key : Str) : List Str :=
  (splitSlash key).drop baseLen

/-- The listdir loop over the drained listing stream: one remaining
segment appends a file in listing order, more than one adds the first
remaining segment to the directory set, zero is ignored. -/
def listdirAux (baseLen : Nat) (dirs files : List Str) : List Str → List Str × List Str
  | [] => (dirs, files)
  | k :: ks =>
    let parts := relParts baseLen k
    if parts.length = 1 then
      listdirAux baseLen dirs (files ++ [parts.headD []]) ks
    else if 1 < parts.length then
      listdirAux baseLen (insertUniq dirs (parts.headD [])) files ks
    else
      listdirAux baseLen dirs files ks

/-- QiniuStorage.listdir over the flat key stream keys drained from
bucket_lister: normalizes the name, slash-terminates it, and partitions
each key by its segments beyond the base segment count. -/
def listdir (cfg : StorageConfig) (name : Str) (keys : List Str) :
    List Str × List Str :=
  listdirAux (baseLenOf cfg name) [] [] keys

/-- Follows the spec's words, for comparison with listdir: the file names
are the keys with exactly one segment beyond the base segment count, each
contributing that segment, in listing order. -/
def specFiles (baseLen : Nat) (keys : List Str) : List Str :=
  keys.filterMap fun k =>
    let parts := relParts baseLen k
    if parts.length = 1 then some (parts.headD []) else none

/-- Follows the spec's words, for comparison with listdir: d is an
immediate subdirectory when some key has more than one remaining segment
and its first remaining segment is d. -/
def specDirOf (baseLen : Nat) (keys : List Str) (d : Str) : Prop :=
  ∃ k ∈ keys, 1 < (relParts baseLen k).length ∧ (relParts baseLen k).headD [] = d

/-- Dropping by a predicate is idempotent. -/
lemma dropWhile_idem (p : Char → Bool) (l : List Char) :
    (l.dropWhile p).dropWhile p = l.dropWhile p := by
  induction l with
  | nil => rfl
  | cons a l ih =>
    by_cases h : p a
    · simp [List.dropWhile_cons, h, ih]
    · simp [List.dropWhile_cons, h]

/-- lstrip('/') is idempotent. -/
lemma lstrip_idem (s : Str) : lstripSlash (lstripSlash s) = lstripSlash s :=
  dropWhile_idem _ s

/-- lstrip('/') absorbs a leading slash. -/
lemma lstrip_cons_slash (s : Str) : lstripSlash ('/' :: s) = lstripSlash s := by
  simp [lstripSlash, List.dropWhile_cons]

/-- lstrip('/') is the identity on a string not starting with '/'. -/
lemma lstrip_cons_of_ne (c : Char) (s : Str) (h : c ≠ '/') :
    lstripSlash (c :: s) = c :: s := by
  simp [lstripSlash, List.dropWhile_cons, h]

/-- With a blank root, _normalize_name only strips leading slashes. -/
lemma normalize_eq_of_loc_nil (cfg : StorageConfig) (h : cfg.location = [])
    (name : Str) : normalizeName cfg name = lstripSlash name := by
  rw [normalizeName, h, List.nil_append, lstrip_cons_slash, lstrip_idem]

/-- With a non-empty root not starting with '/', _normalize_name glues the
root, a slash and the slash-stripped name. -/
lemma normalize_eq_of_loc_cons (cfg : StorageConfig) (c : Char) (l : Str)
    (h : cfg.location = c :: l) (hc : c ≠ '/') (name : Str) :
    normalizeName cfg name = c :: (l ++ '/' :: lstripSlash name) := by
  rw [normalizeName, h, List.cons_append]
  exact lstrip_cons_of_ne c _ hc

/-- C2: the claim fails on the code: for the adapter rooted at "media" the
key "media/a" is the result of normalizing "a", yet normalizing it again
gives "media/media/a", not "media/a". -/
theorem C2_counterexample :
    normalizeName ⟨str "media", [], []⟩ (str "a") = str "media/a"
    ∧ normalizeName ⟨str "media", [], []⟩
        (normalizeName ⟨str "media", [], []⟩ (str "a")) ≠
      normalizeName ⟨str "media", [], []⟩ (str "a") := by
  decide

/-- C2 (amended): normalization is idempotent for the blank root, while
for the "media" and "static" roots re-normalizing an already-normalized
key prepends the root segment again, so no key is a fixed point. -/
theorem C2_normalize_amended :
    (∀ pre dom name : Str,
      normalizeName ⟨[], pre, dom⟩ (normalizeName ⟨[], pre, dom⟩ name) =
        normalizeName ⟨[], pre, dom⟩ name)
    ∧ (∀ pre dom name : Str,
      normalizeName ⟨str "media", pre, dom⟩
          (normalizeName ⟨str "media", pre, dom⟩ name) =
        str "media/" ++ normalizeName ⟨str "media", pre, dom⟩ name)
    ∧ (∀ pre dom name : Str,
      normalizeName ⟨str "static", pre, dom⟩
          (normalizeName ⟨str "static", pre, dom⟩ name) =
        str "static/" ++ normalizeName ⟨str "static", pre, dom⟩ name) := by
  refine ⟨?_, ?_, ?_⟩
  · intro pre dom name
    rw [normalize_eq_of_loc_nil ⟨[], pre, dom⟩ rfl name,
      normalize_eq_of_loc_nil ⟨[], pre, dom⟩ rfl (lstripSlash name), lstrip_idem]
  · intro pre dom name
    rfl
  · intro pre dom name
    rfl

/-- C4: the claim fails on the code for the base adapter: with a blank
root, joining prefix + root + "/" + name.lstrip('/') inserts a slash that
the code's normalization strips away. -/
theorem C4_counterexample :
    url ⟨[], str "p", str "http://example.com/"⟩ (str "a") ≠
      urljoin (str "http://example.com/")
        (str "p" ++ ([] : Str) ++ str "/" ++ lstripSlash (str "a")) := by
  decide

/-- C4 (amended): for the adapters rooted at "media" and "static" the url
is the join of the domain with prefix + root + "/" + name.lstrip('/'); for
the base adapter, whose root is blank, no slash separates the prefix from
the stripped name. -/
theorem C4_url_amended :
    (∀ pre dom n : Str,
      url ⟨str "media", pre, dom⟩ n = urljoin dom (pre ++ str "media/" ++ lstripSlash n))
    ∧ (∀ pre dom n : Str,
      url ⟨str "static", pre, dom⟩ n = urljoin dom (pre ++ str "static/" ++ lstripSlash n))
    ∧ (∀ pre dom n : Str,
      url ⟨[], pre, dom⟩ n = urljoin dom (pre ++ lstripSlash n)) := by
  refine ⟨?_, ?_, ?_⟩
  · intro pre dom n
    rw [List.append_assoc]
    rfl
  · intro pre dom n
    rw [List.append_assoc]
    rfl
  · intro pre dom n
    show urljoin dom (pre ++ normalizeName ⟨[], pre, dom⟩ n) =
      urljoin dom (pre ++ lstripSlash n)
    rw [normalize_eq_of_loc_nil ⟨[], pre, dom⟩ rfl n]

/-- C5: exists answers ok with the presence of the stat record and never
raises; whenever the remote stat reports no result, exists answers False
while size and modified_time raise QiniuError. -/
theorem C5_exists_never_raises_accessors_raise (env : RemoteEnv)
    (cfg : StorageConfig) (name : Str) :
    existsName env cfg name =
      .ok ((env.stats (prefixName cfg (normalizeName cfg name))).isSome)
    ∧ (env.stats (prefixName cfg (normalizeName cfg name)) = none →
        existsName env cfg name = .ok false
        ∧ sizeName env cfg name = .error .qiniuError
        ∧ modifiedTime env cfg name = .error .qiniuError) := by
  constructor
  · simp [existsName, fileStat, Except.map]
  · intro h
    refine ⟨?_, ?_, ?_⟩ <;>
      simp [existsName, sizeName, modifiedTime, fileStat, Except.map, h]

/-- C5 witness: on an empty remote, exists is ok-False while size and
modified_time raise. -/
theorem C5_witness :
    existsName emptyEnv ⟨[], [], []⟩ (str "x") = .ok false
    ∧ sizeName emptyEnv ⟨[], [], []⟩ (str "x") = .error .qiniuError
    ∧ modifiedTime emptyEnv ⟨[], [], []⟩ (str "x") = .error .qiniuError :=
  (C5_exists_never_raises_accessors_raise emptyEnv ⟨[], [], []⟩ (str "x")).2 rfl

/-- C6: delete raises exactly when the service returns no result or
reports status code 612; any response with a result and another status
succeeds. -/
theorem C6_delete_raises_iff (env : RemoteEnv) (cfg : StorageConfig) (name : Str) :
    (∃ e, deleteName env cfg name = .error e) ↔
      (env.deleteRet (prefixName cfg (normalizeName cfg name)) = none
        ∨ env.deleteStatus (prefixName cfg (normalizeName cfg name)) = 612) := by
  by_cases h : env.deleteRet (prefixName cfg (normalizeName cfg name)) = none
      ∨ env.deleteStatus (prefixName cfg (normalizeName cfg name)) = 612
  · simp [deleteName, h]
  · simp [deleteName, h]

/-- C7: write on a handle whose mode has no 'w' raises and leaves the
whole handle state unchanged; write on a write-capable handle succeeds and
sets both the dirty and the read flag. -/
theorem C7_write_requires_write_mode (f : QiniuFile) (data : Bytes) :
    (¬ 'w' ∈ f.mode → writeFile f data = (f, some StorageErr.invalidOperation))
    ∧ ('w' ∈ f.mode →
        (writeFile f data).2 = none
        ∧ (writeFile f data).1.isDirty = true
        ∧ (writeFile f data).1.isRead = true) := by
  constructor <;> intro h <;> simp [writeFile, h]

/-- C7 witness: a read-only handle rejects a write unchanged; a
write-capable handle accepts it and flips both flags. -/
theorem C7_witness :
    writeFile (openFile ⟨[], [], []⟩ (str "a") (str "r")) (bytesOf "d") =
      (openFile ⟨[], [], []⟩ (str "a") (str "r"), some StorageErr.invalidOperation)
    ∧ ((writeFile (openFile ⟨[], [], []⟩ (str "a") (str "w")) (bytesOf "d")).2 = none
      ∧ (writeFile (openFile ⟨[], [], []⟩ (str "a") (str "w")) (bytesOf "d")).1.isDirty = true
      ∧ (writeFile (openFile ⟨[], [], []⟩ (str "a") (str "w")) (bytesOf "d")).1.isRead = true) :=
  ⟨(C7_write_requires_write_mode (openFile ⟨[], [], []⟩ (str "a") (str "r")) (bytesOf "d")).1
      (by decide),
   (C7_write_requires_write_mode (openFile ⟨[], [], []⟩ (str "a") (str "w")) (bytesOf "d")).2
      (by decide)⟩

/-- C9: whenever the remote stat succeeds, modified_time is the raw
putTime divided by exactly 10,000,000; a raw value of 15000000000000
yields Unix time 1500000 seconds. -/
theorem C9_modified_time_divisor (env : RemoteEnv) (cfg : StorageConfig)
    (name : Str) (s : BlobStat)
    (hs : env.stats (prefixName cfg (normalizeName cfg name)) = some s) :
    modifiedTime env cfg name = .ok ((s.putTime : ℚ) / 10000000)
    ∧ (s.putTime = 15000000000000 → modifiedTime env cfg name = .ok 1500000) := by
  have h1 : modifiedTime env cfg name = .ok ((s.putTime : ℚ) / 10000000) := by
    simp [modifiedTime, fileStat, hs]
  refine ⟨h1, ?_⟩
  intro hp
  rw [h1, hp]
  have h2 : ((15000000000000 : ℕ) : ℚ) / 10000000 = 1500000 := by norm_num
  rw [h2]

/-- C9 witness: a stat record with raw putTime 15000000000000 gives
modified_time 1500000 seconds. -/
theorem C9_witness :
    modifiedTime { emptyEnv with stats := fun _ => some ⟨3, 15000000000000⟩ }
      ⟨[], [], []⟩ (str "x") = .ok 1500000 :=
  (C9_modified_time_divisor { emptyEnv with stats := fun _ => some ⟨3, 15000000000000⟩ }
    ⟨[], [], []⟩ (str "x") ⟨3, 15000000000000⟩ rfl).2 rfl

/-- C3: at a dirty handle obtained by writing "data" to "a.txt" opened for
writing under a blank root and filename prefix "p/", close uploads the
buffer under the raw stored name "a.txt" and not under the fully-qualified
key "p/a.txt"; a clean handle uploads nothing. -/
theorem C3_close_flushes_unqualified :
    closeUpload ((writeFile (openFile ⟨[], str "p/", str "http://example.com/"⟩
        (str "a.txt") (str "w")) (bytesOf "data")).1) =
      some (str "a.txt", bytesOf "data")
    ∧ fullKey ⟨[], str "p/", str "http://example.com/"⟩
        ((writeFile (openFile ⟨[], str "p/", str "http://example.com/"⟩
          (str "a.txt") (str "w")) (bytesOf "data")).1) =
      str "p/a.txt"
    ∧ str "a.txt" ≠ str "p/a.txt"
    ∧ closeUpload (openFile ⟨[], str "p/", str "http://example.com/"⟩
        (str "a.txt") (str "w")) = none := by
  decide

/-- An unread handle's read fetches the blob under the prefixed normalized
stored name, fills the buffer with it and returns it whole, honoring the
mode. -/
lemma readFile_fresh (decode : Bytes → Str) (env : RemoteEnv)
    (cfg : StorageConfig) (f : QiniuFile) (hf : f.isRead = false) :
    readFile decode env cfg f none =
      (env.blobs (prefixName cfg (normalizeName cfg f.name))).map fun c =>
        (if 'b' ∈ f.mode then ReadData.bin c else ReadData.txt (decode c),
          { f with buffer := c, pos := c.length, isRead := true }) := by
  cases hb : env.blobs (prefixName cfg (normalizeName cfg f.name)) with
  | none => simp [readFile, readRemote, hf, hb]
  | some c => simp [readFile, readRemote, hf, hb]

/-- Opening under a blank root and normalizing reproduces the key of the
original name. -/
lemma key_open_nil (pre dom name : Str) :
    normalizeName ⟨[], pre, dom⟩ (lstripSlash (name.drop (List.length ([] : Str)))) =
      normalizeName ⟨[], pre, dom⟩ name := by
  simp [normalize_eq_of_loc_nil ⟨[], pre, dom⟩ rfl, lstrip_idem]

/-- Opening the name an earlier save returned and normalizing reproduces
the saved key, for any root not starting with '/'. -/
lemma key_open_stored (cfg : StorageConfig) (h : cfg.location.head? ≠ some '/')
    (name : Str) :
    normalizeName cfg (lstripSlash ((normalizeName cfg name).drop cfg.location.length)) =
      normalizeName cfg name := by
  cases hl : cfg.location with
  | nil =>
    simp [normalize_eq_of_loc_nil cfg hl, hl, lstrip_idem]
  | cons c l =>
    have hc : c ≠ '/' := by
      intro e
      apply h
      rw [hl, e]
      rfl
    have hdrop : (normalizeName cfg name).drop (c :: l).length =
        '/' :: lstripSlash name := by
      rw [normalize_eq_of_loc_cons cfg c l hl hc]
      simp [List.drop_succ_cons, List.drop_left]
    rw [hdrop, lstrip_cons_slash, lstrip_idem]
    simp only [normalizeName, lstrip_idem]

/-- Reading a freshly opened handle after a save returns the saved content
whenever the opened name's key equals the saved key: bytes in binary mode,
decoded text otherwise. -/
lemma read_after_save (env : RemoteEnv) (cfg : StorageConfig) (saveN openN : Str)
    (content : Bytes) (decode : Bytes → Str) (mode : Str)
    (hkey : normalizeName cfg (lstripSlash (openN.drop cfg.location.length)) =
      normalizeName cfg saveN) :
    (readFile decode (save env cfg saveN content).1 cfg
        (openFile cfg openN mode) none).map Prod.fst =
      some (if 'b' ∈ mode then ReadData.bin content else ReadData.txt (decode content)) := by
  rw [readFile_fresh decode _ cfg _ rfl]
  have hn : (openFile cfg openN mode).name =
      lstripSlash (openN.drop cfg.location.length) := rfl
  rw [hn, hkey]
  have hb : (save env cfg saveN content).1.blobs
      (prefixName cfg (normalizeName cfg saveN)) = some content := by
    simp [save, putFile]
  rw [hb]
  simp [openFile]

/-- C1: the claim fails on the code for the adapter rooted at "media":
after save("foo.txt", b"hello"), open("foo.txt") stores the truncated name
"xt", so its read fetches the key "p/media/xt" rather than the saved key
"p/media/foo.txt" and returns no data instead of the content. -/
theorem C1_counterexample :
    (readFile (fun _ => [])
        (save emptyEnv ⟨str "media", str "p/", str "http://example.com/"⟩
          (str "foo.txt") (bytesOf "hello")).1
        ⟨str "media", str "p/", str "http://example.com/"⟩
        (openFile ⟨str "media", str "p/", str "http://example.com/"⟩
          (str "foo.txt") (str "rb")) none).map Prod.fst ≠
      some (ReadData.bin (bytesOf "hello")) := by
  decide

/-- C1 (amended): the round-trip holds as stated for the base adapter
(blank root): saving any name and opening that same name reads back the
content, bytes in binary mode and its decoded form in text mode; for any
root not starting with '/', hence for the "media" and "static" variants,
the round-trip holds when open is given the name save returned. -/
theorem C1_roundtrip_amended (env : RemoteEnv) (loc pre dom name : Str)
    (content : Bytes) (decode : Bytes → Str) (h : loc.head? ≠ some '/') :
    (loc = [] →
      ((readFile decode (save env ⟨loc, pre, dom⟩ name content).1 ⟨loc, pre, dom⟩
          (openFile ⟨loc, pre, dom⟩ name (str "rb")) none).map Prod.fst =
        some (ReadData.bin content)
      ∧ (readFile decode (save env ⟨loc, pre, dom⟩ name content).1 ⟨loc, pre, dom⟩
          (openFile ⟨loc, pre, dom⟩ name (str "r")) none).map Prod.fst =
        some (ReadData.txt (decode content))))
    ∧ ((readFile decode (save env ⟨loc, pre, dom⟩ name content).1 ⟨loc, pre, dom⟩
          (openFile ⟨loc, pre, dom⟩ (save env ⟨loc, pre, dom⟩ name content).2
            (str "rb")) none).map Prod.fst =
        some (ReadData.bin content)
      ∧ (readFile decode (save env ⟨loc, pre, dom⟩ name content).1 ⟨loc, pre, dom⟩
          (openFile ⟨loc, pre, dom⟩ (save env ⟨loc, pre, dom⟩ name content).2
            (str "r")) none).map Prod.fst =
        some (ReadData.txt (decode content))) := by
  constructor
  · intro hl
    subst hl
    constructor
    · have hb : 'b' ∈ str "rb" := by decide
      rw [read_after_save env ⟨[], pre, dom⟩ name name content decode (str "rb")
        (key_open_nil pre dom name), if_pos hb]
    · have hb : ¬ 'b' ∈ str "r" := by decide
      rw [read_after_save env ⟨[], pre, dom⟩ name name content decode (str "r")
        (key_open_nil pre dom name), if_neg hb]
  · constructor
    · have hb : 'b' ∈ str "rb" := by decide
      rw [read_after_save env ⟨loc, pre, dom⟩ name
        ((save env ⟨loc, pre, dom⟩ name content).2) content decode (str "rb")
        (key_open_stored ⟨loc, pre, dom⟩ h name), if_pos hb]
    · have hb : ¬ 'b' ∈ str "r" := by decide
      rw [read_after_save env ⟨loc, pre, dom⟩ name
        ((save env ⟨loc, pre, dom⟩ name content).2) content decode (str "r")
        (key_open_stored ⟨loc, pre, dom⟩ h name), if_neg hb]

/-- C1 witness: the media variant round-trips through the name save
returned; the base adapter round-trips through the original name. -/
theorem C1_witness :
    ((readFile (fun _ => [])
        (save emptyEnv ⟨str "media", str "p/", str "d/"⟩ (str "foo.txt") (bytesOf "hi")).1
        ⟨str "media", str "p/", str "d/"⟩
        (openFile ⟨str "media", str "p/", str "d/"⟩
          (save emptyEnv ⟨str "media", str "p/", str "d/"⟩ (str "foo.txt") (bytesOf "hi")).2
          (str "rb")) none).map Prod.fst =
      some (ReadData.bin (bytesOf "hi")))
    ∧ ((readFile (fun _ => [])
        (save emptyEnv ⟨[], str "p/", str "d/"⟩ (str "a") (bytesOf "hi")).1
        ⟨[], str "p/", str "d/"⟩
        (openFile ⟨[], str "p/", str "d/"⟩ (str "a") (str "rb")) none).map Prod.fst =
      some (ReadData.bin (bytesOf "hi"))) :=
  ⟨(C1_roundtrip_amended emptyEnv (str "media") (str "p/") (str "d/") (str "foo.txt")
      (bytesOf "hi") (fun _ => []) (by decide)).2.1,
   ((C1_roundtrip_amended emptyEnv [] (str "p/") (str "d/") (str "a")
      (bytesOf "hi") (fun _ => []) (by decide)).1 rfl).1⟩

/-- C10: for any adapter with a non-empty root, an opened handle's stored
name is the constructor's name with its first len(root) characters removed
and remaining leading slashes stripped, whatever the name; a read of the
fresh handle fetches exactly that truncated name's prefixed normalized
key, and a dirty close flushes the buffer under that truncated name. -/
theorem C10_open_truncates (cfg : StorageConfig) (name mode : Str)
    (h : cfg.location ≠ []) :
    (openFile cfg name mode).name = lstripSlash (name.drop cfg.location.length)
    ∧ (∀ env : RemoteEnv, ∀ decode : Bytes → Str,
        (readFile decode env cfg (openFile cfg name mode) none).map Prod.fst =
          (env.blobs (prefixName cfg
              (normalizeName cfg (lstripSlash (name.drop cfg.location.length))))).map
            (fun c => if 'b' ∈ mode then ReadData.bin c else ReadData.txt (decode c)))
    ∧ (∀ buf : Bytes,
        closeUpload { openFile cfg name mode with buffer := buf, isDirty := true } =
          some (lstripSlash (name.drop cfg.location.length), buf)) := by
  refine ⟨rfl, ?_, ?_⟩
  · intro env decode
    rw [readFile_fresh decode env cfg (openFile cfg name mode) rfl]
    simp only [openFile]
    rcases hb : env.blobs (prefixName cfg
        (normalizeName cfg (lstripSlash (name.drop cfg.location.length)))) with _ | c <;>
      simp [hb]
  · intro buf
    rfl

/-- C10 witness: the media variant opened on "foo.txt" stores the name
"xt" and a dirty close flushes under "xt". -/
theorem C10_witness :
    (openFile ⟨str "media", [], []⟩ (str "foo.txt") (str "rb")).name = str "xt"
    ∧ closeUpload { openFile ⟨str "media", [], []⟩ (str "foo.txt") (str "rb") with
        buffer := bytesOf "d", isDirty := true } = some (str "xt", bytesOf "d") := by
  have h := C10_open_truncates ⟨str "media", [], []⟩ (str "foo.txt") (str "rb") (by decide)
  exact ⟨h.1.trans (by decide), (h.2.2 (bytesOf "d")).trans (by decide)⟩

/-- Membership in the directory set after an insertion. -/
lemma mem_insertUniq (l : List Str) (x d : Str) :
    d ∈ insertUniq l x ↔ d ∈ l ∨ d = x := by
  by_cases h : x ∈ l
  · simp only [insertUniq, if_pos h]
    constructor
    · exact Or.inl
    · rintro (hd | rfl)
      · exact hd
      · exact h
  · simp [insertUniq, if_neg h]

/-- Insertion keeps the directory set deduplicated. -/
lemma nodup_insertUniq (l : List Str) (x : Str) (h : l.Nodup) :
    (insertUniq l x).Nodup := by
  by_cases hx : x ∈ l
  · rw [insertUniq, if_pos hx]
    exact h
  · rw [insertUniq, if_neg hx]
    have hd : l.Disjoint [x] := by
      intro a ha hb
      rw [List.mem_singleton] at hb
      subst hb
      exact hx ha
    exact h.append (List.nodup_singleton x) hd

/-- The file component of the listdir loop: the starting list extended by
the single-remaining-segment keys, in listing order. -/
lemma listdirAux_snd (b : Nat) (ks : List Str) :
    ∀ dirs files, (listdirAux b dirs files ks).2 = files ++ specFiles b ks := by
  induction ks with
  | nil =>
    intro dirs files
    simp [listdirAux, specFiles]
  | cons k ks ih =>
    intro dirs files
    by_cases h1 : (relParts b k).length = 1
    · simp [listdirAux, h1, ih, specFiles, List.filterMap_cons]
    · by_cases h2 : 1 < (relParts b k).length
      · simp [listdirAux, h1, h2, ih, specFiles, List.filterMap_cons]
      · simp [listdirAux, h1, h2, ih, specFiles, List.filterMap_cons]

/-- The directory component of the listdir loop: membership is membership
in the starting set or being the first remaining segment of a key with
more than one remaining segment. -/
lemma listdirAux_fst (b : Nat) (ks : List Str) :
    ∀ dirs files d, d ∈ (listdirAux b dirs files ks).1 ↔
      d ∈ dirs ∨ specDirOf b ks d := by
  induction ks with
  | nil =>
    intro dirs files d
    simp [listdirAux, specDirOf]
  | cons k ks ih =>
    intro dirs files d
    by_cases h1 : (relParts b k).length = 1
    · have hn : ¬ 1 < (relParts b k).length := by omega
      have e : listdirAux b dirs files (k :: ks) =
          listdirAux b dirs (files ++ [(relParts b k).headD []]) ks := by
        simp [listdirAux, h1]
      rw [e, ih]
      simp [specDirOf, hn]
    · by_cases h2 : 1 < (relParts b k).length
      · have e : listdirAux b dirs files (k :: ks) =
            listdirAux b (insertUniq dirs ((relParts b k).headD [])) files ks := by
          simp [listdirAux, h1, h2]
        rw [e, ih, mem_insertUniq]
        simp only [specDirOf, List.mem_cons]
        constructor
        · rintro ((hd | rfl) | hs)
          · exact Or.inl hd
          · exact Or.inr ⟨k, Or.inl rfl, h2, rfl⟩
          · rcases hs with ⟨k', hk', hlen, hhd⟩
            exact Or.inr ⟨k', Or.inr hk', hlen, hhd⟩
        · rintro (hd | ⟨k', (rfl | hk'), hlen, hhd⟩)
          · exact Or.inl (Or.inl hd)
          · exact Or.inl (Or.inr hhd.symm)
          · exact Or.inr ⟨k', hk', hlen, hhd⟩
      · have e : listdirAux b dirs files (k :: ks) = listdirAux b dirs files ks := by
          simp [listdirAux, h1, h2]
        rw [e, ih]
        simp [specDirOf, h2]

/-- The listdir loop preserves deduplication of the directory set. -/
lemma listdirAux_nodup (b : Nat) (ks : List Str) :
    ∀ dirs files, dirs.Nodup → (listdirAux b dirs files ks).1.Nodup := by
  induction ks with
  | nil =>
    intro dirs files h
    simpa [listdirAux] using h
  | cons k ks ih =>
    intro dirs files h
    by_cases h1 : (relParts b k).length = 1
    · have e : listdirAux b dirs files (k :: ks) =
          listdirAux b dirs (files ++ [(relParts b k).headD []]) ks := by
        simp [listdirAux, h1]
      rw [e]
      exact ih _ _ h
    · by_cases h2 : 1 < (relParts b k).length
      · have e : listdirAux b dirs files (k :: ks) =
            listdirAux b (insertUniq dirs ((relParts b k).headD [])) files ks := by
          simp [listdirAux, h1, h2]
        rw [e]
        exact ih _ _ (nodup_insertUniq dirs _ h)
      · have e : listdirAux b dirs files (k :: ks) = listdirAux b dirs files ks := by
          simp [listdirAux, h1, h2]
        rw [e]
        exact ih _ _ h

/-- C8: listdir partitions the drained key stream by the slash-terminated
prefix's segment count: the files are exactly the keys with one remaining
segment, in listing order, and the directories are exactly the first
remaining segments of keys with more than one remaining segment,
deduplicated; in particular listdir("") over ["a.txt", "sub/b.txt",
"sub/c.txt"] yields dirs ["sub"] and files ["a.txt"]. -/
theorem C8_listdir_partition :
    (∀ cfg : StorageConfig, ∀ name : Str, ∀ keys : List Str,
      (listdir cfg name keys).2 = specFiles (baseLenOf cfg name) keys
      ∧ (∀ d, d ∈ (listdir cfg name keys).1 ↔ specDirOf (baseLenOf cfg name) keys d)
      ∧ (listdir cfg name keys).1.Nodup)
    ∧ listdir ⟨[], [], []⟩ [] [str "a.txt", str "sub/b.txt", str "sub/c.txt"] =
        ([str "sub"], [str "a.txt"]) := by
  constructor
  · intro cfg name keys
    refine ⟨?_, ?_, ?_⟩
    · rw [listdir, listdirAux_snd]
      simp
    · intro d
      rw [listdir, listdirAux_fst]
      simp
    · exact listdirAux_nodup _ _ _ _ List.nodup_nil
  · decide
